import Mathlib

/-!
Verification of the pendulum simulation (src/main.rs).

The program integrates a simple pendulum with semi-implicit Euler over f64
state (`theta`, `w`) and draws derived quantities each frame.  We embed the
numeric core over ℝ, and model the Rust integer conversions faithfully:
`as i16` on a finite f64 truncates toward zero and saturates to the i16
range; `f64::round` rounds half away from zero; i16 addition and
subtraction wrap around modulo 2^16 (two's complement).
-/

noncomputable section

namespace Pendulum

/-- Constant `L` from main.rs: pendulum arm length, in cm. -/
def L : ℝ := 200

/-- Constant `G` from main.rs: gravitational acceleration, in cm/s². -/
def G : ℝ := 981

/-- Constant `THETA_0` from main.rs: `-1.0 * PI * 0.65`. -/
def THETA_0 : ℝ := -1 * Real.pi * 0.65

/-- Constant `CENTER` from main.rs: the pivot point `(300, 220)`. -/
def CENTER : ℤ × ℤ := (300, 220)

/-- Truncation of a real toward zero, as Rust float-to-integer `as` casts do. -/
def truncR (x : ℝ) : ℤ := if 0 ≤ x then ⌊x⌋ else ⌈x⌉

/-- Saturation of an integer into the i16 range, as Rust float-to-integer
`as` casts do for out-of-range values. -/
def satI16 (n : ℤ) : ℤ := max (-32768) (min 32767 n)

/-- Rust `as i16` applied to a finite f64 value: truncate toward zero,
then saturate into the i16 range. -/
def rustAsI16 (x : ℝ) : ℤ := satI16 (truncR x)

/-- Wrap-around of an integer into the i16 range, the two's-complement
behaviour of overflowing i16 addition and subtraction. -/
def wrap16 (n : ℤ) : ℤ := (n + 32768) % 65536 - 32768

/-- `f64::round`: round half away from zero. -/
def roundHalfAway (x : ℝ) : ℤ := if 0 ≤ x then ⌊x + 1 / 2⌋ else -⌊-x + 1 / 2⌋

/-- The angular-velocity update of one frame (main.rs line 94):
`w += -1.0 * G / L * theta.sin() * delta_t.as_secs_f64()`. -/
def stepW (theta w dt : ℝ) : ℝ := w + -1 * G / L * Real.sin theta * dt

/-- The angle update of one frame (main.rs line 96), applied after the
angular-velocity update: `theta += w * delta_t.as_secs_f64()`. -/
def stepTheta (theta w dt : ℝ) : ℝ := theta + stepW theta w dt * dt

/-- One full integration step: new `theta` paired with new `w`. -/
def step (theta w dt : ℝ) : ℝ × ℝ := (stepTheta theta w dt, stepW theta w dt)

/-- Iterated integration steps with a fixed time increment. -/
def stepN (dt : ℝ) : ℕ → ℝ × ℝ → ℝ × ℝ
  | 0, p => p
  | n + 1, p => step (stepN dt n p).1 (stepN dt n p).2 dt

/-- The integrator exactly as the spec words it, with `g = 981`, `l = 200`:
`omega' = omega + (-g/l) * sin(theta) * dt` from the old `theta`, then
`theta' = theta + omega' * dt` from the updated `omega'`. -/
def specStep (theta w dt : ℝ) : ℝ × ℝ :=
  (theta + (w + -(981 : ℝ) / 200 * Real.sin theta * dt) * dt,
   w + -(981 : ℝ) / 200 * Real.sin theta * dt)

/-- Bob x coordinate (main.rs line 99):
`CENTER.0 + (theta.sin() * L).round() as i16`, in i16 arithmetic. -/
def bobX (theta : ℝ) : ℤ := wrap16 (300 + satI16 (roundHalfAway (Real.sin theta * L)))

/-- Bob y coordinate (main.rs line 100):
`CENTER.1 + (theta.cos() * L).round() as i16`, in i16 arithmetic. -/
def bobY (theta : ℝ) : ℤ := wrap16 (220 + satI16 (roundHalfAway (Real.cos theta * L)))

/-- Velocity-vector endpoint x coordinate (main.rs line 110):
`x + (theta.cos() * L * w / 10.0).round() as i16`, in i16 arithmetic. -/
def vX (theta w : ℝ) : ℤ :=
  wrap16 (bobX theta + satI16 (roundHalfAway (Real.cos theta * L * w / 10)))

/-- Velocity-vector endpoint y coordinate (main.rs line 111):
`y - (theta.sin() * L * w / 10.0).round() as i16`, in i16 arithmetic. -/
def vY (theta w : ℝ) : ℤ :=
  wrap16 (bobY theta - satI16 (roundHalfAway (Real.sin theta * L * w / 10)))

/-- The fixed display scale constant the spec calls `k`. -/
def k : ℝ := 10

/-- The velocity-vector endpoint x as the spec words it, in plain integer
arithmetic: `vx = x + round(cos(theta) * L * omega / k)`. -/
def specVx (theta w : ℝ) : ℤ := bobX theta + roundHalfAway (Real.cos theta * L * w / k)

/-- The velocity-vector endpoint y as the spec words it, in plain integer
arithmetic: `vy = y - round(sin(theta) * L * omega / k)`. -/
def specVy (theta w : ℝ) : ℤ := bobY theta - roundHalfAway (Real.sin theta * L * w / k)

/-- The angle in degrees as the code computes it inside main.rs line 117:
`(theta * 180.0 / PI) as i16`. -/
def thetaDegrees (theta : ℝ) : ℤ := rustAsI16 (theta * 180 / Real.pi)

/-- The display angle of main.rs line 117: `90 - (theta * 180.0 / PI) as i16`,
in i16 arithmetic. -/
def displayAngle (theta : ℝ) : ℤ := wrap16 (90 - thetaDegrees theta)

/-- The arc start passed to `filled_pie` (main.rs line 122): `cmp::min(angle, 90)`. -/
def sweepStart (angle : ℤ) : ℤ := min angle 90

/-- The arc end passed to `filled_pie` (main.rs line 123): `cmp::max(angle, 90)`. -/
def sweepEnd (angle : ℤ) : ℤ := max angle 90

/-- The arc start as a function of the simulation state. -/
def pieStart (theta : ℝ) : ℤ := sweepStart (displayAngle theta)

/-- The arc end as a function of the simulation state. -/
def pieEnd (theta : ℝ) : ℤ := sweepEnd (displayAngle theta)

/-- The linear speed displayed in the overlay (main.rs line 170): `w * L / 100.0`. -/
def linearSpeed (w : ℝ) : ℝ := w * L / 100

/-- The speed overlay (main.rs lines 167-174), modelled as the pieces of
`format!("v: {:.3} m/s", w * L / 100.0)`: the text before the formatted
number, the text after it, and the real value handed to the `{:.3}` slot. -/
def speedOverlay (w : ℝ) : (String × String) × ℝ := (("v: ", " m/s"), w * L / 100)

/-- Initial value of the `elapsed` tick counter (main.rs line 70):
`let mut elapsed: u64 = 1`. -/
def elapsedInit : ℕ := 1

/-- The value of `elapsed` at the start of frame `n`, given the measured
tick duration `d i` of each frame `i` (main.rs line 245 updates it at the
end of every frame). -/
def elapsedSeq (d : ℕ → ℕ) : ℕ → ℕ
  | 0 => elapsedInit
  | n + 1 => d n

/-- The FPS value rendered during frame `n` (main.rs lines 175-188):
`timer.performance_frequency() as f64 / elapsed as f64`. -/
def fpsShown (freq : ℕ) (d : ℕ → ℕ) (n : ℕ) : ℝ :=
  (freq : ℝ) / (elapsedSeq d n : ℝ)

/- ### Helper lemmas -/

theorem satI16_lb (n : ℤ) : -32768 ≤ satI16 n := by
  unfold satI16; omega

theorem satI16_ub (n : ℤ) : satI16 n ≤ 32767 := by
  unfold satI16; omega

theorem satI16_eq_self {n : ℤ} (h1 : -32768 ≤ n) (h2 : n ≤ 32767) : satI16 n = n := by
  unfold satI16; omega

theorem wrap16_eq_self {n : ℤ} (h1 : -32768 ≤ n) (h2 : n ≤ 32767) : wrap16 n = n := by
  unfold wrap16
  have h3 : (n + 32768) % 65536 = n + 32768 := Int.emod_eq_of_lt (by omega) (by omega)
  omega

theorem roundHalfAway_sub_abs (x : ℝ) : |(roundHalfAway x : ℝ) - x| ≤ 1 / 2 := by
  unfold roundHalfAway
  split
  · have h1 := Int.floor_le (x + 1 / 2)
    have h2 := Int.lt_floor_add_one (x + 1 / 2)
    rw [abs_le]
    constructor <;> [linarith; linarith]
  · have h1 := Int.floor_le (-x + 1 / 2)
    have h2 := Int.lt_floor_add_one (-x + 1 / 2)
    rw [abs_le]
    push_cast
    constructor <;> [linarith; linarith]

theorem roundHalfAway_abs_le {x : ℝ} (m : ℤ) (h : |x| ≤ (m : ℝ)) :
    |roundHalfAway x| ≤ m := by
  have h1 := roundHalfAway_sub_abs x
  have h2 : |(roundHalfAway x : ℝ)| ≤ (m : ℝ) + 1 / 2 := by
    calc |(roundHalfAway x : ℝ)| = |((roundHalfAway x : ℝ) - x) + x| := by ring_nf
      _ ≤ |(roundHalfAway x : ℝ) - x| + |x| := abs_add _ _
      _ ≤ (m : ℝ) + 1 / 2 := by linarith
  have h3 : ((|roundHalfAway x| : ℤ) : ℝ) < (m : ℝ) + 1 := by
    rw [Int.cast_abs]; linarith
  have h4 : |roundHalfAway x| < m + 1 := by exact_mod_cast h3
  omega

theorem roundHalfAway_intCast (n : ℤ) : roundHalfAway (n : ℝ) = n := by
  unfold roundHalfAway
  split
  · rw [show ((n : ℝ) + 1 / 2) = (n : ℝ) + ((1 : ℝ) / 2) by ring, Int.floor_int_add]
    norm_num
  · rw [show (-(n : ℝ) + 1 / 2) = ((-n : ℤ) : ℝ) + ((1 : ℝ) / 2) by push_cast; ring,
      Int.floor_int_add]
    norm_num

theorem roundHalfAway_sin_bound (theta : ℝ) :
    |roundHalfAway (Real.sin theta * L)| ≤ 200 := by
  refine roundHalfAway_abs_le 200 ?_
  rw [abs_mul, show |L| = 200 by rw [L]; norm_num]
  have h := Real.abs_sin_le_one theta
  push_cast
  nlinarith

theorem roundHalfAway_cos_bound (theta : ℝ) :
    |roundHalfAway (Real.cos theta * L)| ≤ 200 := by
  refine roundHalfAway_abs_le 200 ?_
  rw [abs_mul, show |L| = 200 by rw [L]; norm_num]
  have h := Real.abs_cos_le_one theta
  push_cast
  nlinarith

theorem bobX_eq (theta : ℝ) : bobX theta = 300 + roundHalfAway (Real.sin theta * L) := by
  have h := roundHalfAway_sin_bound theta
  rw [abs_le] at h
  unfold bobX
  rw [satI16_eq_self (by omega) (by omega), wrap16_eq_self (by omega) (by omega)]

theorem bobY_eq (theta : ℝ) : bobY theta = 220 + roundHalfAway (Real.cos theta * L) := by
  have h := roundHalfAway_cos_bound theta
  rw [abs_le] at h
  unfold bobY
  rw [satI16_eq_self (by omega) (by omega), wrap16_eq_self (by omega) (by omega)]

/- ### Claims -/

/-- C1: one integration step computes `omega' = omega + (-g/l) * sin(theta) * dt`
from the old `theta` and then `theta' = theta + omega' * dt` from the updated
`omega'` (semi-implicit Euler), with `g = 981` and `l = 200`. -/
theorem step_is_semi_implicit_euler (theta w dt : ℝ) (hdt : 0 ≤ dt) :
    step theta w dt = specStep theta w dt := by
  unfold step stepTheta stepW specStep G L
  rw [Prod.mk.injEq]
  constructor <;> ring

/-- Witness for C1 at `theta = 0`, `w = 0`, `dt = 1`. -/
theorem step_is_semi_implicit_euler_witness :
    (0 : ℝ) ≤ 1 ∧ step 0 0 1 = specStep 0 0 1 :=
  ⟨by norm_num, step_is_semi_implicit_euler 0 0 1 (by norm_num)⟩

/-- C3: the state `theta = 0`, `omega = 0` is a fixed point of the integrator:
any number of successive steps with any `dt` leaves it unchanged. -/
theorem equilibrium_is_fixed_point (dt : ℝ) (n : ℕ) : stepN dt n (0, 0) = (0, 0) := by
  induction n with
  | zero => rfl
  | succ n ih =>
    rw [stepN, ih]
    simp [step, stepTheta, stepW]

/-- C4: an integration step with `dt = 0` leaves any state `(theta0, 0)` with
`theta0` in `(-π, π]` unchanged. -/
theorem zero_dt_step_is_identity (theta : ℝ)
    (h : theta ∈ Set.Ioc (-Real.pi) Real.pi) : step theta 0 0 = (theta, 0) := by
  simp [step, stepTheta, stepW]

/-- Witness for C4 at `theta = 0`. -/
theorem zero_dt_step_is_identity_witness :
    (0 : ℝ) ∈ Set.Ioc (-Real.pi) Real.pi ∧ step 0 0 0 = ((0 : ℝ), (0 : ℝ)) :=
  ⟨⟨neg_lt_zero.mpr Real.pi_pos, Real.pi_pos.le⟩,
    zero_dt_step_is_identity 0 ⟨neg_lt_zero.mpr Real.pi_pos, Real.pi_pos.le⟩⟩

/-- C5: the angle-arc sweep uses `min(angle, 90)` as its start and
`max(angle, 90)` as its end for every display angle, in particular giving
bounds `(45, 90)` for `angle = 45` and `(90, 135)` for `angle = 135`. -/
theorem sweep_bounds_min_max (angle : ℤ) (theta : ℝ) :
    (sweepStart angle = min angle 90 ∧ sweepEnd angle = max angle 90) ∧
    (pieStart theta = min (displayAngle theta) 90 ∧
      pieEnd theta = max (displayAngle theta) 90) ∧
    (sweepStart 45 = 45 ∧ sweepEnd 45 = 90) ∧
    (sweepStart 135 = 90 ∧ sweepEnd 135 = 135) := by
  refine ⟨⟨rfl, rfl⟩, ⟨rfl, rfl⟩, ⟨?_, ?_⟩, ⟨?_, ?_⟩⟩ <;> decide

/-- C9: the speed overlay renders `"v: {:.3} m/s"` applied to the value
`linear_speed = omega * L / 100 = omega * 200 / 100`. -/
theorem speed_overlay_format (w : ℝ) :
    speedOverlay w = (("v: ", " m/s"), linearSpeed w) ∧ linearSpeed w = w * 200 / 100 := by
  constructor
  · rfl
  · unfold linearSpeed L; rfl

/-- C10: the elapsed-tick counter starts at 1, so the FPS overlay of the very
first frame shows the raw performance frequency divided by 1. -/
theorem first_frame_fps_is_frequency (freq : ℕ) (d : ℕ → ℕ) :
    elapsedSeq d 0 = 1 ∧ fpsShown freq d 0 = (freq : ℝ) := by
  refine ⟨rfl, ?_⟩
  unfold fpsShown elapsedSeq elapsedInit
  norm_num

/-- Product of a number in `[-1, 1]` and a number in `[-1/2, 1/2]` lies in
`[-1/2, 1/2]`. -/
theorem unit_half_mul_bound (s u : ℝ) (hsl : -1 ≤ s) (hsu : s ≤ 1)
    (hul : -(1 / 2) ≤ u) (huu : u ≤ 1 / 2) : -(1 / 2) ≤ s * u ∧ s * u ≤ 1 / 2 := by
  constructor <;>
    nlinarith [mul_nonneg (by linarith : (0 : ℝ) ≤ 1 - s) (by linarith : (0 : ℝ) ≤ 1 / 2 - u),
      mul_nonneg (by linarith : (0 : ℝ) ≤ 1 - s) (by linarith : (0 : ℝ) ≤ 1 / 2 + u),
      mul_nonneg (by linarith : (0 : ℝ) ≤ 1 + s) (by linarith : (0 : ℝ) ≤ 1 / 2 - u),
      mul_nonneg (by linarith : (0 : ℝ) ≤ 1 + s) (by linarith : (0 : ℝ) ≤ 1 / 2 + u)]

/-- Arithmetic core of the circle property: a point whose coordinates are
within 1/2 of `(200 s, 200 c)` with `s² + c² = 1` has squared distance from
the origin within 401 of `200²`. -/
theorem circle_error_bound (s c ru rv : ℝ) (hs : s ^ 2 + c ^ 2 = 1)
    (hsl : -1 ≤ s) (hsu : s ≤ 1) (hcl : -1 ≤ c) (hcu : c ≤ 1)
    (hu : |ru - s * 200| ≤ 1 / 2) (hv : |rv - c * 200| ≤ 1 / 2) :
    |ru ^ 2 + rv ^ 2 - 200 ^ 2| ≤ 401 := by
  rw [abs_le] at hu hv ⊢
  have hsu2 := unit_half_mul_bound s (ru - s * 200) hsl hsu (by linarith) (by linarith)
  have hcv2 := unit_half_mul_bound c (rv - c * 200) hcl hcu (by linarith) (by linarith)
  have hu2 : (ru - s * 200) ^ 2 ≤ 1 / 4 := by nlinarith
  have hv2 : (rv - c * 200) ^ 2 ≤ 1 / 4 := by nlinarith
  have key : ru ^ 2 + rv ^ 2 - 200 ^ 2 =
      400 * (s * (ru - s * 200)) + 400 * (c * (rv - c * 200)) +
        (ru - s * 200) ^ 2 + (rv - c * 200) ^ 2 := by
    linear_combination (40000 : ℝ) * hs
  constructor <;> linarith [hsu2.1, hsu2.2, hcv2.1, hcv2.2,
    sq_nonneg (ru - s * 200), sq_nonneg (rv - c * 200)]

/-- C7: the computed bob position stays on the circle of radius `L` around
the pivot, up to rounding error: the squared distance differs from `L²` by
at most 401 (the worst case of rounding both coordinates to integers). -/
theorem bob_position_on_circle (theta : ℝ) :
    |((bobX theta - CENTER.1 : ℤ) : ℝ) ^ 2 + ((bobY theta - CENTER.2 : ℤ) : ℝ) ^ 2 - L ^ 2|
      ≤ 401 := by
  have hL : L = (200 : ℝ) := rfl
  have hu := roundHalfAway_sub_abs (Real.sin theta * L)
  have hv := roundHalfAway_sub_abs (Real.cos theta * L)
  rw [hL] at hu hv
  have hx : ((bobX theta - CENTER.1 : ℤ) : ℝ) = (roundHalfAway (Real.sin theta * L) : ℝ) := by
    rw [bobX_eq theta, show CENTER.1 = 300 from rfl]
    push_cast
    ring
  have hy : ((bobY theta - CENTER.2 : ℤ) : ℝ) = (roundHalfAway (Real.cos theta * L) : ℝ) := by
    rw [bobY_eq theta, show CENTER.2 = 220 from rfl]
    push_cast
    ring
  rw [hx, hy, hL]
  exact circle_error_bound (Real.sin theta) (Real.cos theta) _ _
    (Real.sin_sq_add_cos_sq theta) (Real.neg_one_le_sin theta) (Real.sin_le_one theta)
    (Real.neg_one_le_cos theta) (Real.cos_le_one theta) hu hv

theorem thetaDegrees_neg600 : thetaDegrees (-600) = -32768 := by
  have hpi := Real.pi_pos
  have hlt : Real.pi < 3.15 := Real.pi_lt_d2
  have hx : (-600 : ℝ) * 180 / Real.pi < 0 :=
    div_neg_of_neg_of_pos (by norm_num) hpi
  unfold thetaDegrees rustAsI16 truncR
  rw [if_neg (not_le.mpr hx)]
  have hceil : ⌈(-600 : ℝ) * 180 / Real.pi⌉ ≤ -32768 := by
    rw [Int.ceil_le, div_le_iff₀ hpi]
    push_cast
    nlinarith
  unfold satI16
  rw [min_eq_right (by omega), max_eq_left (by omega)]

/-- C6 counterexample: at `theta = -600` radians the conversion to degrees
saturates at `-32768` and the i16 subtraction `90 - theta_degrees`
overflows, so the display angle is not `90 - theta_degrees`. -/
theorem display_angle_overflow_cex :
    displayAngle (-600) ≠ 90 - thetaDegrees (-600) := by
  unfold displayAngle
  rw [thetaDegrees_neg600]
  decide

/-- C6 amended: whenever `90 - theta_degrees` does not overflow i16
(that is, `theta_degrees ≥ -32677`), the display angle used for the
angle-arc sweep equals `90 - theta_degrees`, where `theta_degrees` is
`theta * 180 / π` truncated toward zero and saturated to the i16 range. -/
theorem display_angle_eq_90_sub_degrees (theta : ℝ)
    (h : -32677 ≤ thetaDegrees theta) :
    displayAngle theta = 90 - thetaDegrees theta := by
  have h2 : thetaDegrees theta ≤ 32767 := by
    unfold thetaDegrees rustAsI16
    exact satI16_ub _
  unfold displayAngle
  exact wrap16_eq_self (by omega) (by omega)

theorem thetaDegrees_zero : thetaDegrees 0 = 0 := by
  unfold thetaDegrees rustAsI16 truncR satI16
  rw [zero_mul, zero_div]
  norm_num

/-- Witness for the amended C6 at `theta = 0`. -/
theorem display_angle_eq_90_sub_degrees_witness :
    -32677 ≤ thetaDegrees 0 ∧ displayAngle 0 = 90 - thetaDegrees 0 :=
  ⟨by rw [thetaDegrees_zero]; norm_num,
    display_angle_eq_90_sub_degrees 0 (by rw [thetaDegrees_zero]; norm_num)⟩

theorem roundHalfAway_zero : roundHalfAway 0 = 0 := by
  have h := roundHalfAway_intCast 0
  simpa using h

theorem bobX_zero : bobX 0 = 300 := by
  rw [bobX_eq, Real.sin_zero, zero_mul, roundHalfAway_zero]
  norm_num

/-- C8 counterexample: at `theta = 0`, `omega = 1700` the scaled velocity
component is `34000`, which saturates to `32767` in the `as i16` cast, and
the i16 addition overflows, so the drawn endpoint is not
`x + round(cos(theta) * L * omega / k)`. -/
theorem velocity_endpoint_overflow_cex : vX 0 1700 ≠ specVx 0 1700 := by
  have harg : Real.cos 0 * L * 1700 / 10 = ((34000 : ℤ) : ℝ) := by
    rw [Real.cos_zero, show L = (200 : ℝ) from rfl]
    norm_num
  unfold vX specVx k
  rw [harg, roundHalfAway_intCast, bobX_zero]
  decide

/-- C8 amended: whenever `|omega| ≤ 1600` (so that neither the `as i16`
cast of the rounded component nor the i16 addition and subtraction can
overflow), the velocity-vector endpoint is
`vx = x + round(cos(theta) * L * omega / k)`,
`vy = y - round(sin(theta) * L * omega / k)` with `k = 10`. -/
theorem velocity_endpoint_formula (theta w : ℝ) (h : |w| ≤ 1600) :
    vX theta w = specVx theta w ∧ vY theta w = specVy theta w := by
  rw [abs_le] at h
  have hL : L = (200 : ℝ) := rfl
  have hc1 := Real.neg_one_le_cos theta
  have hc2 := Real.cos_le_one theta
  have hs1 := Real.neg_one_le_sin theta
  have hs2 := Real.sin_le_one theta
  have hcw : |Real.cos theta * L * w / 10| ≤ ((32000 : ℤ) : ℝ) := by
    rw [hL, abs_le]
    push_cast
    constructor <;>
      nlinarith [mul_nonneg (by linarith : (0 : ℝ) ≤ 1 - Real.cos theta)
          (by linarith : (0 : ℝ) ≤ 1600 - w),
        mul_nonneg (by linarith : (0 : ℝ) ≤ 1 - Real.cos theta)
          (by linarith : (0 : ℝ) ≤ 1600 + w),
        mul_nonneg (by linarith : (0 : ℝ) ≤ 1 + Real.cos theta)
          (by linarith : (0 : ℝ) ≤ 1600 - w),
        mul_nonneg (by linarith : (0 : ℝ) ≤ 1 + Real.cos theta)
          (by linarith : (0 : ℝ) ≤ 1600 + w)]
  have hsw : |Real.sin theta * L * w / 10| ≤ ((32000 : ℤ) : ℝ) := by
    rw [hL, abs_le]
    push_cast
    constructor <;>
      nlinarith [mul_nonneg (by linarith : (0 : ℝ) ≤ 1 - Real.sin theta)
          (by linarith : (0 : ℝ) ≤ 1600 - w),
        mul_nonneg (by linarith : (0 : ℝ) ≤ 1 - Real.sin theta)
          (by linarith : (0 : ℝ) ≤ 1600 + w),
        mul_nonneg (by linarith : (0 : ℝ) ≤ 1 + Real.sin theta)
          (by linarith : (0 : ℝ) ≤ 1600 - w),
        mul_nonneg (by linarith : (0 : ℝ) ≤ 1 + Real.sin theta)
          (by linarith : (0 : ℝ) ≤ 1600 + w)]
  have hrc := roundHalfAway_abs_le 32000 hcw
  have hrs := roundHalfAway_abs_le 32000 hsw
  rw [abs_le] at hrc hrs
  have hbx := roundHalfAway_sin_bound theta
  have hby := roundHalfAway_cos_bound theta
  rw [abs_le] at hbx hby
  have hX := bobX_eq theta
  have hY := bobY_eq theta
  refine ⟨?_, ?_⟩
  · unfold vX specVx k
    rw [satI16_eq_self (by omega) (by omega)]
    exact wrap16_eq_self (by omega) (by omega)
  · unfold vY specVy k
    rw [satI16_eq_self (by omega) (by omega)]
    exact wrap16_eq_self (by omega) (by omega)

/-- Witness for the amended C8 at `theta = 0`, `omega = 0`. -/
theorem velocity_endpoint_formula_witness :
    |(0 : ℝ)| ≤ 1600 ∧ (vX 0 0 = specVx 0 0 ∧ vY 0 0 = specVy 0 0) :=
  ⟨by norm_num, velocity_endpoint_formula 0 0 (by norm_num)⟩

theorem sin_THETA_0 : Real.sin THETA_0 = -Real.cos (3 * Real.pi / 20) := by
  unfold THETA_0
  rw [show (-1 : ℝ) * Real.pi * 0.65 = -(Real.pi - 7 * Real.pi / 20) by ring]
  rw [Real.sin_neg, Real.sin_pi_sub]
  rw [show (7 : ℝ) * Real.pi / 20 = Real.pi / 2 - 3 * Real.pi / 20 by ring]
  rw [Real.sin_pi_div_two_sub]

theorem cos_3pi20_bounds :
    (0.8863 : ℝ) ≤ Real.cos (3 * Real.pi / 20) ∧
      Real.cos (3 * Real.pi / 20) ≤ 0.8916 := by
  have hpl : 3.141592 < Real.pi := Real.pi_gt_d6
  have hpu : Real.pi < 3.141593 := Real.pi_lt_d6
  set y := 3 * Real.pi / 20 with hy
  have hyl : (0.4712388 : ℝ) ≤ y := by rw [hy]; linarith
  have hyu : y ≤ (0.471239 : ℝ) := by rw [hy]; linarith
  have hy0 : (0 : ℝ) ≤ y := by linarith
  have habs : |y| ≤ 1 := by rw [abs_of_nonneg hy0]; linarith
  have hb := Real.cos_bound habs
  rw [abs_of_nonneg hy0] at hb
  rw [abs_le] at hb
  have hy2u : y ^ 2 ≤ (0.2220662 : ℝ) := by
    nlinarith [mul_nonneg (by linarith : (0 : ℝ) ≤ 0.471239 - y)
      (by linarith : (0 : ℝ) ≤ 0.471239 + y)]
  have hy2l : (0.222066 : ℝ) ≤ y ^ 2 := by
    nlinarith [mul_nonneg (by linarith : (0 : ℝ) ≤ y - 0.4712388)
      (by linarith : (0 : ℝ) ≤ y + 0.4712388)]
  have hy4 : y ^ 4 ≤ (0.0493134 : ℝ) := by
    nlinarith [mul_nonneg (by linarith : (0 : ℝ) ≤ 0.2220662 - y ^ 2)
      (by nlinarith [sq_nonneg y] : (0 : ℝ) ≤ 0.2220662 + y ^ 2)]
  constructor <;> linarith [hb.1, hb.2]

theorem omega1_eq :
    (step THETA_0 0 (1 / 100)).2 = 981 / 20000 * Real.cos (3 * Real.pi / 20) := by
  show stepW THETA_0 0 (1 / 100) = _
  unfold stepW G L
  rw [sin_THETA_0]
  ring

theorem omega1_bounds :
    (0.0434 : ℝ) < (step THETA_0 0 (1 / 100)).2 ∧
      (step THETA_0 0 (1 / 100)).2 < 0.0438 := by
  rw [omega1_eq]
  have hc := cos_3pi20_bounds
  constructor <;> linarith [hc.1, hc.2]

theorem theta1_bounds :
    (-2.0417 : ℝ) < (step THETA_0 0 (1 / 100)).1 ∧
      (step THETA_0 0 (1 / 100)).1 < -2.0415 := by
  have h0 := omega1_bounds
  have hpl : 3.141592 < Real.pi := Real.pi_gt_d6
  have hpu : Real.pi < 3.141593 := Real.pi_lt_d6
  have ht : (step THETA_0 0 (1 / 100)).1 =
      THETA_0 + (step THETA_0 0 (1 / 100)).2 * (1 / 100) := rfl
  have hTu : THETA_0 < (-2.0420348 : ℝ) := by
    rw [show THETA_0 = -1 * Real.pi * 0.65 from rfl]
    linarith
  have hTl : (-2.0420355 : ℝ) < THETA_0 := by
    rw [show THETA_0 = -1 * Real.pi * 0.65 from rfl]
    linarith
  rw [ht]
  constructor <;> linarith [h0.1, h0.2]

/-- C2 counterexample: after one step of `dt = 0.01` from
`theta0 = -0.65π`, `omega0 = 0`, the resulting angular velocity is
positive (about `+0.0437`), so it is not approximately `-0.04663`: it
differs from that value by more than `0.04`. -/
theorem one_step_omega_sign_cex :
    0 < (step THETA_0 0 (1 / 100)).2 ∧
      (0.04 : ℝ) < |(step THETA_0 0 (1 / 100)).2 - (-0.04663)| := by
  obtain ⟨h1, h2⟩ := omega1_bounds
  constructor
  · linarith
  · rw [abs_of_pos (by linarith)]
    linarith

/-- C2 amended: starting from `theta0 = -0.65π`, `omega0 = 0`, one step with
`dt = 0.01` follows the stated formula, and gives
`omega1 = (-981/200) * sin(-0.65π) * 0.01 ≈ +0.0437` (within `0.0002`) and
`theta1 = -0.65π + omega1 * 0.01 ≈ -2.0416` (within `0.0001`), not
`-0.04663` and `-2.0420`. -/
theorem one_step_values :
    step THETA_0 0 (1 / 100) = specStep THETA_0 0 (1 / 100) ∧
    ((0.0434 : ℝ) < (step THETA_0 0 (1 / 100)).2 ∧
      (step THETA_0 0 (1 / 100)).2 < 0.0438) ∧
    ((-2.0417 : ℝ) < (step THETA_0 0 (1 / 100)).1 ∧
      (step THETA_0 0 (1 / 100)).1 < -2.0415) := by
  refine ⟨?_, omega1_bounds, theta1_bounds⟩
  unfold step stepTheta stepW specStep G L
  rw [Prod.mk.injEq]
  constructor <;> ring

end Pendulum

end
